import Mathlib

/-!
Verification of the Otpusk/Uchrabvr payroll reconciliation programs.

This file gives a shallow embedding, in Lean 4, of the matching-and-accumulation
engine of `SRC/uchrabvr.py`, its decimal money arithmetic (`SRC/common.py`,
`Common.sum_str`, built on CPython's `decimal` module with context precision 28
and `ROUND_HALF_EVEN`), the code-table validation, and the tax-balance checker
of `SRC/uder.py`.  All machine arithmetic is modelled with `Nat`/`Int`; fallible
code returns `Except`; Python mutable state is passed explicitly.
-/

/-! ## Part 1: the decimal arithmetic used by `Common.sum_str`

`Common.sum_str` computes `str((Decimal(s1) + Decimal(s2)).quantize(Decimal("0.01"),
rounding=ROUND_HALF_EVEN))` with `getcontext().prec = 28`, converting
`InvalidOperation` raised by the guarded region (the two conversions and the
addition) into `ValueError`.  We model the fragment of CPython's `decimal`
module that this call can exercise: the numeric-string grammar (sign, digits,
point, exponent, `Infinity`, `NaN`, `sNaN`; the whitespace/underscore tolerance
of CPython's parser is not modelled), exact addition followed by rounding to 28
significant digits half-even with overflow detection, quantization to two
fractional digits, and plain-notation string formatting.  Subnormal clamping at
`Etiny` is not modelled: it is unobservable through a quantization to exponent
-2. -/

deriving instance DecidableEq for Except

/-- The decimal digit character for `d % 10`. -/
def digitChar (d : Nat) : Char :=
  match d % 10 with
  | 0 => '0' | 1 => '1' | 2 => '2' | 3 => '3' | 4 => '4'
  | 5 => '5' | 6 => '6' | 7 => '7' | 8 => '8' | _ => '9'

/-- Little-endian decimal digits of `n`, with explicit fuel (structural
recursion so that the kernel can evaluate it). -/
def natToCharsAux : Nat → Nat → List Char
  | 0, _ => []
  | fuel + 1, n =>
    if n < 10 then [digitChar n] else digitChar (n % 10) :: natToCharsAux fuel (n / 10)

/-- Little-endian decimal digits of `n` (never empty: `0` is `['0']`). -/
def natToChars (n : Nat) : List Char :=
  natToCharsAux (n + 1) n

/-- Number of decimal digits of a coefficient (1 for `0`), as `decimal` counts
the length of a coefficient's digit tuple. -/
def numDigits (n : Nat) : Nat :=
  (natToChars n).length

/-- `n / m` rounded half-to-even (banker's rounding), the `ROUND_HALF_EVEN`
rule of the `decimal` module, for `m > 0`. -/
def roundHalfEvenDiv (n m : Nat) : Nat :=
  let q := n / m
  let r := n % m
  if m < 2 * r then q + 1
  else if 2 * r < m then q
  else if q % 2 = 0 then q else q + 1

/-- The kind of a `decimal.Decimal` value reachable in `sum_str`: a finite
number `coeff × 10 ^ exp`, an infinity, a quiet NaN or a signaling NaN
(NaNs carry their diagnostic payload digits). -/
inductive DecKind where
  | finite (coeff : Nat) (exp : Int)
  | inf
  | qnan (payload : String)
  | snan (payload : String)
deriving DecidableEq, Repr

/-- A `decimal.Decimal` value: a sign (`true` = negative) and a kind. -/
structure Dec where
  sign : Bool
  kind : DecKind
deriving DecidableEq, Repr

/-- Numeric value of a char digit. -/
def charToNatDigit (c : Char) : Nat := c.toNat - 48

/-- The natural number denoted by a big-endian list of digit characters. -/
def natOfDigits (ds : List Char) : Nat :=
  ds.foldl (fun a c => a * 10 + charToNatDigit c) 0

/-- Parse an optional leading sign; `true` means negative. -/
def parseSign : List Char → Bool × List Char
  | '-' :: cs => (true, cs)
  | '+' :: cs => (false, cs)
  | cs => (false, cs)

/-- Parse the exponent part after the `e` indicator (sign and digits), giving
the finite decimal with coefficient digits `digs` and fractional offset
`baseExp`. -/
def parseExpPart (sg : Bool) (digs : List Char) (baseExp : Int) (rest : List Char) :
    Option Dec :=
  let (esg, rest') := parseSign rest
  if rest' ≠ [] ∧ rest'.all (·.isDigit) then
    some ⟨sg, .finite (natOfDigits digs)
      (baseExp + (if esg then -(natOfDigits rest' : Int) else (natOfDigits rest' : Int)))⟩
  else none

/-- Conversion of a string to `decimal.Decimal`, per the module's
numeric-string grammar: `[sign] (digits [. digits] | . digits) [E [sign] digits]`,
`[sign] Infinity|Inf`, `[sign] NaN [digits]`, `[sign] sNaN [digits]`, all case
insensitive.  `none` models the constructor signaling `InvalidOperation`
(conversion syntax). -/
def parseDecimal (s : String) : Option Dec :=
  let cs0 := s.data.map Char.toLower
  let (sg, cs) := parseSign cs0
  if cs = "infinity".data ∨ cs = "inf".data then some ⟨sg, .inf⟩
  else if cs.take 4 = "snan".data ∧ (cs.drop 4).all (·.isDigit) then
    some ⟨sg, .snan (String.mk (cs.drop 4))⟩
  else if cs.take 3 = "nan".data ∧ (cs.drop 3).all (·.isDigit) then
    some ⟨sg, .qnan (String.mk (cs.drop 3))⟩
  else
    let intd := cs.takeWhile (·.isDigit)
    let rest := cs.dropWhile (·.isDigit)
    match rest with
    | [] => if intd = [] then none else some ⟨sg, .finite (natOfDigits intd) 0⟩
    | '.' :: rest2 =>
      let frac := rest2.takeWhile (·.isDigit)
      let rest3 := rest2.dropWhile (·.isDigit)
      if intd = [] ∧ frac = [] then none
      else
        match rest3 with
        | [] => some ⟨sg, .finite (natOfDigits (intd ++ frac)) (-(frac.length : Int))⟩
        | 'e' :: rest4 => parseExpPart sg (intd ++ frac) (-(frac.length : Int)) rest4
        | _ => none
    | 'e' :: rest2 => if intd = [] then none else parseExpPart sg intd 0 rest2
    | _ => none

/-- Errors observable from `Common.sum_str`: the `ValueError` it raises itself
(`InvalidAmount`), and the two `decimal` exceptions that escape it unhandled. -/
inductive Err where
  | valueError
  | invalidOperation
  | overflow
deriving DecidableEq, Repr

/-- Conditions signaled by context addition: `InvalidOperation` (sNaN operand
or opposite infinities) or `Overflow`. -/
inductive AddErr where
  | invalidOp
  | overflow
deriving DecidableEq, Repr

/-- `n` as an `Int` carrying sign `b`. -/
def sgnInt (b : Bool) (n : Nat) : Int := if b then -(n : Int) else (n : Int)

/-- Round a coefficient with more than 28 digits down to 28 significant digits
half-to-even, adjusting the exponent (with the carry case `99…9 → 10…0`). -/
def roundPrec (c : Nat) (e : Int) : Nat × Int :=
  let k := numDigits c - 28
  let q := roundHalfEvenDiv c (10 ^ k)
  if q = 10 ^ 28 then (10 ^ 27, e + k + 1) else (q, e + (k : Int))

/-- The exact sum of two finite decimals as an integer at the smaller
exponent `min e1 e2` (the ideal exponent of decimal addition). -/
def combInt (s1 : Bool) (c1 : Nat) (e1 : Int) (s2 : Bool) (c2 : Nat) (e2 : Int) : Int :=
  sgnInt s1 c1 * 10 ^ (e1 - min e1 e2).toNat + sgnInt s2 c2 * 10 ^ (e2 - min e1 e2).toNat

/-- The sign of the addition result: negative for a negative exact sum, and a
zero result is negative only when both operands are negative (zeros). -/
def addSign (s1 : Bool) (c1 : Nat) (e1 : Int) (s2 : Bool) (c2 : Nat) (e2 : Int) : Bool :=
  if combInt s1 c1 e1 s2 c2 e2 < 0 then true
  else if 0 < combInt s1 c1 e1 s2 c2 e2 then false
  else (s1 && s2)

/-- Context addition of two finite decimals: exact sum at the smaller exponent,
then rounding to the context precision 28 (ROUND_HALF_EVEN) and the overflow
check against `Emax = 999999`. -/
def addFinite (s1 : Bool) (c1 : Nat) (e1 : Int) (s2 : Bool) (c2 : Nat) (e2 : Int) :
    Except AddErr Dec :=
  let e := min e1 e2
  let c := (combInt s1 c1 e1 s2 c2 e2).natAbs
  let p := if numDigits c ≤ 28 then (c, e) else roundPrec c e
  if p.1 ≠ 0 ∧ (999999 : Int) < e + (p.2 - e) + (numDigits p.1 : Int) - 1 then
    .error .overflow
  else .ok ⟨addSign s1 c1 e1 s2 c2 e2, .finite p.1 p.2⟩

/-- Addition under the default context (prec 28, ROUND_HALF_EVEN, traps on
`InvalidOperation` and `Overflow`): special operands follow the decimal
specification (NaN propagation, `∞ + (-∞)` and sNaN operands signal
`InvalidOperation`). -/
def addCtx (d1 d2 : Dec) : Except AddErr Dec :=
  match d1, d2 with
  | ⟨_, .snan _⟩, _ => .error .invalidOp
  | _, ⟨_, .snan _⟩ => .error .invalidOp
  | ⟨s, .qnan p⟩, _ => .ok ⟨s, .qnan p⟩
  | _, ⟨s, .qnan p⟩ => .ok ⟨s, .qnan p⟩
  | ⟨s1, .inf⟩, ⟨s2, .inf⟩ => if s1 = s2 then .ok ⟨s1, .inf⟩ else .error .invalidOp
  | ⟨s1, .inf⟩, _ => .ok ⟨s1, .inf⟩
  | _, ⟨s2, .inf⟩ => .ok ⟨s2, .inf⟩
  | ⟨s1, .finite c1 e1⟩, ⟨s2, .finite c2 e2⟩ => addFinite s1 c1 e1 s2 c2 e2

/-- `x.quantize(Decimal("0.01"), rounding=ROUND_HALF_EVEN)` under precision 28:
rescale the coefficient to exponent `-2` (rounding half-even when digits are
dropped), signaling `InvalidOperation` when the operand is an infinity or the
resulting coefficient would exceed 28 digits; quiet NaNs pass through. -/
def quantize2 (d : Dec) : Except Err Dec :=
  match d with
  | ⟨s, .qnan p⟩ => .ok ⟨s, .qnan p⟩
  | ⟨_, .snan _⟩ => .error .invalidOperation
  | ⟨_, .inf⟩ => .error .invalidOperation
  | ⟨s, .finite c e⟩ =>
    let c' := if -2 ≤ e then c * 10 ^ (e + 2).toNat
              else roundHalfEvenDiv c (10 ^ (-(e + 2)).toNat)
    if 28 < numDigits c' then .error .invalidOperation else .ok ⟨s, .finite c' (-2)⟩

/-- Little-endian digit characters of a coefficient, zero-padded to at least
three digits (so a quantized value always prints an integer part). -/
def finChars (c : Nat) : List Char :=
  let l := natToChars c
  l ++ List.replicate (3 - l.length) '0'

/-- `str` of a `Decimal` as produced after `quantize2` (finite values all have
exponent `-2`, hence plain notation with exactly two fractional digits; the
sign is printed whenever the sign bit is set, including on `-0.00`). -/
def decToStr (d : Dec) : String :=
  match d with
  | ⟨s, .finite c _⟩ =>
    let l := finChars c
    String.mk ((if s then ['-'] else []) ++ (l.drop 2).reverse ++
      '.' :: [l.getD 1 '0', l.getD 0 '0'])
  | ⟨s, .inf⟩ => String.mk ((if s then ['-'] else []) ++ "Infinity".data)
  | ⟨s, .qnan p⟩ => String.mk ((if s then ['-'] else []) ++ "NaN".data ++ p.data)
  | ⟨s, .snan p⟩ => String.mk ((if s then ['-'] else []) ++ "sNaN".data ++ p.data)

/-- `Common.sum_str` (SRC/common.py, lines 152-165) on two strings: parse both
operands and add them inside the region guarded by `except InvalidOperation`
(converted to `ValueError`), then quantize to two fractional digits and format
— the quantize call sits outside the guard, so its exceptions escape. -/
def sum_str (s1 s2 : String) : Except Err String :=
  match parseDecimal s1, parseDecimal s2 with
  | some d1, some d2 =>
    match addCtx d1 d2 with
    | .error .invalidOp => .error .valueError
    | .error .overflow => .error .overflow
    | .ok d =>
      match quantize2 d with
      | .error er => .error er
      | .ok q => .ok (decToStr q)
  | _, _ => .error .valueError

/-- A Python value passed to `sum_str`: a `str` or any non-string object. -/
inductive PyVal where
  | str (s : String)
  | nonStr
deriving DecidableEq, Repr

/-- `Common.sum_str` including its `isinstance` guard: non-string operands
raise `ValueError` before any decimal work. -/
def sum_str_py (v1 v2 : PyVal) : Except Err String :=
  match v1, v2 with
  | .str a, .str b => sum_str a b
  | _, _ => .error .valueError

/-- The rational value denoted by a finite `Dec` (0 for the special kinds,
which denote no number). -/
def decValue (d : Dec) : ℚ :=
  match d with
  | ⟨s, .finite c e⟩ => (if s then -1 else 1) * (c : ℚ) * (10 : ℚ) ^ e
  | _ => 0

/-- `s` parses as a finite decimal number. -/
def parsesFinite (s : String) : Bool :=
  match parseDecimal s with
  | some ⟨_, .finite _ _⟩ => true
  | _ => false

/-- The value of a decimal string (0 when it does not parse to a finite
number). -/
def strValue (s : String) : ℚ :=
  match parseDecimal s with
  | some d => decValue d
  | none => 0

example : sum_str "0.005" "0" = .ok "0.00" := by decide
example : sum_str "0.015" "0" = .ok "0.02" := by decide
example : sum_str "0.00" "100.00" = .ok "100.00" := by decide
example : sum_str "abc" "1.00" = .error .valueError := by decide
example : sum_str "-0.001" "0" = .ok "-0.00" := by decide
example : sum_str "100.00" "-90.00" = .ok "10.00" := by decide
example : sum_str "1e30" "0" = .error .invalidOperation := by decide
example : sum_str "Infinity" "1" = .error .invalidOperation := by decide
example : sum_str "Infinity" "-Infinity" = .error .valueError := by decide
example : sum_str "NaN" "1" = .ok "NaN" := by decide

/-! ## Part 2: the Code Map (`PRIMARY_SECONDARY_PAYCODES`) and its validation -/

/-- A field of `PrimarySecondaryCodes`: either one code (a Python `str`) or a
tuple of codes. -/
inductive StrTup where
  | str (s : String)
  | tup (l : List String)
deriving DecidableEq, Repr

/-- An entry of the code table `PRIMARY_SECONDARY_PAYCODES`
(`PrimarySecondaryCodes` in SRC/common.py). -/
structure PSCodes where
  primary : StrTup
  secondary : StrTup
deriving DecidableEq, Repr

/-- `Common.normalize_tuple_str`: a bare code becomes a singleton tuple. -/
def normalize_tuple_str : StrTup → List String
  | .str s => [s]
  | .tup l => l

/-- Substring test on char lists (Python `needle in hay` for strings). -/
def listContains (hay needle : List Char) : Bool :=
  (List.range (hay.length + 1)).any (fun i => needle.isPrefixOf (hay.drop i))

/-- Python's `in` operator as used in `processing_vidops`
(`row.vidop in variable.secondary`): tuple membership when the field is a
tuple, substring containment when the field is a bare string. -/
def pyIn (v : String) : StrTup → Bool
  | .str s => listContains s.data v.data
  | .tup l => decide (v ∈ l)

/-- The code table of SRC/common.py (`PRIMARY_SECONDARY_PAYCODES`). -/
def PRIMARY_SECONDARY_PAYCODES : List PSCodes :=
  [⟨.tup ["18", "48", "87", "204"], .tup ["305", "306"]⟩,
   ⟨.str "20",                      .tup ["315", "316"]⟩,
   ⟨.str "54",                      .tup ["313", "314"]⟩,
   ⟨.str "76",                      .tup ["309", "310"]⟩,
   ⟨.str "77",                      .tup ["311", "312"]⟩,
   ⟨.tup ["106", "104", "110", "112"], .tup ["303", "304"]⟩,
   ⟨.tup ["107", "111"],            .tup ["307", "308"]⟩,
   ⟨.tup ["108", "109"],            .tup ["318", "319"]⟩]

/-- All codes of a table, primary then secondary per entry, normalized, in
iteration order — the sequence `Uchrabvr.validate_unique_secondary_codes`
walks with its single `all_codes` accumulator. -/
def flatCodes (vv : List PSCodes) : List String :=
  (vv.map (fun r => normalize_tuple_str r.primary ++ normalize_tuple_str r.secondary)).flatten

/-- The `all_codes` / `duplicate_codes` accumulation loop of
`validate_unique_secondary_codes`: each code already seen is appended to the
duplicate list, otherwise it is added to the seen-set. -/
def collectDups (seen : List String) : List String → List String
  | [] => []
  | c :: cs => if c ∈ seen then c :: collectDups seen cs else collectDups (c :: seen) cs

/-- `Uchrabvr.validate_unique_secondary_codes` (SRC/uchrabvr.py, lines
378-398): returns the list of duplicated codes found while walking every
entry's normalized primary and secondary codes. -/
def validate_unique_secondary_codes (vv : List PSCodes) : List String :=
  collectDups [] (flatCodes vv)

/-! ## Part 3: the Match Engine (`Uchrabvr`, SRC/uchrabvr.py) -/

/-- `UchrabvrStructure`: one CSV row of `UCHRABVR.txt`; all fields are text. -/
structure Rec where
  nrec : String
  tabn : String
  mes : String
  mesn : String
  vidop : String
  summa : String
  summaval : String
  datan : String
  datok : String
  clsch : String
deriving DecidableEq, Repr

/-- The diagnostics the engine logs (`TEXT_ERROR` 0, 1, 4 and 2 with their
format arguments; the two log lines emitted for one unprocessed vidop are one
`uncovered` diagnostic). -/
inductive Diag where
  | noPrimary (tabn vidop datan datok : String) (mainVidops : List String)
  | ambiguous (tabn vidop datan datok : String) (mainVidops : List String)
  | uncovered (tabn vidop : String)
  | sumNotNumeric (tabn vidop summa1 summa2 : String)
deriving DecidableEq, Repr

/-- The cross-group mutable state of a `Uchrabvr` object: `return_code`,
`SQL_update_queries` and the log of diagnostics. -/
structure GState where
  return_code : Nat
  SQL_update_queries : List String
  diags : List Diag
deriving DecidableEq, Repr

/-- An aborted run: the Python exception that escaped `start()` and the
object state (diagnostics logged so far) at that point. -/
structure Abort where
  err : Err
  state : GState
deriving DecidableEq, Repr

/-- The `ZERO` constant of SRC/uchrabvr.py. -/
def ZERO : String := "0.00"

/-- The per-group working state: the group's records (`person_uchrabvr`), the
`processed_vidops` set (as a duplicate-free list) and the outer state. -/
structure PState where
  person : List Rec
  processed : List String
  g : GState
deriving DecidableEq, Repr

/-- `Uchrabvr.create_index_by_key`: positions of the group's records by
`(vidop, datan, datok)`, in record order. -/
def indexByKey (group : List Rec) (key : String × String × String) : List Nat :=
  (group.enum.filter
    (fun p => p.2.vidop == key.1 && p.2.datan == key.2.1 && p.2.datok == key.2.2)).map (·.1)

/-- `Uchrabvr.find_uchrabvr`: candidate positions for every normalized primary
code at the secondary record's period bounds, concatenated in discovered
order. -/
def find_uchrabvr (idx : String × String × String → List Nat) (primary_vidops : StrTup)
    (datan datok : String) : List Nat :=
  ((normalize_tuple_str primary_vidops).map (fun pv => idx (pv, datan, datok))).flatten

/-- Set-insert into `processed_vidops`. -/
def addProcessed (v : String) (l : List String) : List String :=
  if v ∈ l then l else v :: l

/-- `Uchrabvr.update_primary_uchrabvr`: record both vidops as processed, add
the secondary's `summaval` to the primary's `summa` via `sum_str`; a
`ValueError` logs `TEXT_ERROR[2]` (both raw values) and re-raises, any other
exception propagates unlogged; on success the primary record is replaced by a
copy carrying the new sum. -/
def update_primary_uchrabvr (i : Nat) (sec : Rec) (st : PState) : Except Abort PState :=
  match st.person.get? i with
  | none => .ok st
  | some prim =>
    let processed' := addProcessed sec.vidop (addProcessed prim.vidop st.processed)
    match sum_str prim.summa sec.summaval with
    | .ok s =>
      .ok { st with person := st.person.set i { prim with summa := s },
                    processed := processed' }
    | .error .valueError =>
      .error ⟨.valueError,
        { st.g with diags := st.g.diags ++
            [.sumNotNumeric sec.tabn prim.vidop prim.summa sec.summaval] }⟩
    | .error e => .error ⟨e, st.g⟩

/-- `Uchrabvr.update_uchrabvr`: zero candidates → `NoPrimaryFound` diagnostic,
`return_code = 1`, continue; several candidates → `AmbiguousPrimary`
diagnostic, `return_code = 1`, continue; exactly one → update it. -/
def update_uchrabvr (idx : String × String × String → List Nat) (pv : StrTup)
    (sec : Rec) (st : PState) : Except Abort PState :=
  match find_uchrabvr idx pv sec.datan sec.datok with
  | [] =>
    let d := Diag.noPrimary sec.tabn sec.vidop sec.datan sec.datok (normalize_tuple_str pv)
    .ok { st with g := { st.g with return_code := 1, diags := st.g.diags ++ [d] } }
  | [i] => update_primary_uchrabvr i sec st
  | _ =>
    let d := Diag.ambiguous sec.tabn sec.vidop sec.datan sec.datok (normalize_tuple_str pv)
    .ok { st with g := { st.g with return_code := 1, diags := st.g.diags ++ [d] } }

/-- One iteration of `Uchrabvr.processing_vidops`: find the first table entry
whose secondary side contains the row's vidop (Python `in`), and if found run
`update_uchrabvr` with that entry's primary side. -/
def pvStep (table : List PSCodes) (idx : String × String × String → List Nat)
    (st : PState) (row : Rec) : Except Abort PState :=
  match table.find? (fun v => pyIn row.vidop v.secondary) with
  | some v => update_uchrabvr idx v.primary row st
  | none => .ok st

/-- `Uchrabvr.processing_vidops` over the group's rows (iterating the rows as
read at group start: in-place replacement only changes `summa`, which the loop
never reads from the iteration variable). -/
def processing_vidops (table : List PSCodes) (idx : String × String × String → List Nat) :
    List Rec → PState → Except Abort PState
  | [], st => .ok st
  | r :: rs, st =>
    match pvStep table idx st r with
    | .error a => .error a
    | .ok st' => processing_vidops table idx rs st'

/-- `Uchrabvr.create_SQL_request`: one `UPDATE` statement, in record order,
for every record whose `summa` differs from `ZERO`. -/
def create_SQL_request (person : List Rec) (g : GState) : GState :=
  let stmts := (person.filter (fun r => decide (r.summa ≠ ZERO))).map
    (fun r => "UPDATE uchrabvr WHERE nrec=" ++ r.nrec ++ " SET summa:=" ++ r.summa ++ ";")
  { g with SQL_update_queries := g.SQL_update_queries ++ stmts }

/-- `Uchrabvr.control_processing_completion`: an `uncovered` diagnostic and
`return_code = 1` for every record whose vidop is not in `processed_vidops`. -/
def control_processing_completion (person : List Rec) (processed : List String)
    (g : GState) : GState :=
  let mis := person.filter (fun r => decide (r.vidop ∉ processed))
  { g with diags := g.diags ++ mis.map (fun r => .uncovered r.tabn r.vidop),
           return_code := if mis.isEmpty then g.return_code else 1 }

/-- `Uchrabvr.processing_person`: skip empty groups, otherwise index, resolve,
emit SQL and run the coverage pass (`processed_vidops` is cleared at the start
of `processing_vidops`). -/
def processing_person (table : List PSCodes) (group : List Rec) (g : GState) :
    Except Abort GState :=
  if group.isEmpty then .ok g
  else
    match processing_vidops table (indexByKey group) group ⟨group, [], g⟩ with
    | .error a => .error a
    | .ok st =>
      .ok (control_processing_completion st.person st.processed
            (create_SQL_request st.person st.g))

/-- The grouping loop of `Uchrabvr.start`: accumulate a contiguous run of one
`clsch`, processing the accumulated group whenever the key changes (the key
starts at `"-1"`). Returns the key, the pending tail group and the state. -/
def startLoop (table : List PSCodes) :
    List Rec → String → List Rec → GState → Except Abort (String × List Rec × GState)
  | [], c, p, g => .ok (c, p, g)
  | r :: rs, c, p, g =>
    if r.clsch ≠ c then
      match processing_person table p g with
      | .error a => .error a
      | .ok g' => startLoop table rs r.clsch [r] g'
    else startLoop table rs c (p ++ [r]) g

/-- Ingestion in `Uchrabvr.start`: every row's `summa` is overwritten with
`ZERO` at stream level, before grouping. -/
def ingest (r : Rec) : Rec := { r with summa := ZERO }

/-- `Uchrabvr.start`: ingest, group by `clsch`, process each group, and flush
the tail group after the stream ends. -/
def uchrabvrStart (table : List PSCodes) (rows : List Rec) (g : GState) :
    Except Abort GState :=
  match startLoop table (rows.map ingest) "-1" [] g with
  | .error a => .error a
  | .ok (_, p, g') => processing_person table p g'

/-- The object state right after `Uchrabvr.__init__`: `return_code` is the
value of `Common.fill_in_parameters` — `1` when `uchrabvr.cfg` is absent
(defaults used), `0` when it was read. -/
def initState (cfgMissing : Bool) : GState :=
  ⟨if cfgMissing then 1 else 0, [], []⟩

/-- A whole run of the engine on a parsed input stream. -/
def runUchrabvr (table : List PSCodes) (cfgMissing : Bool) (rows : List Rec) :
    Except Abort GState :=
  uchrabvrStart table rows (initState cfgMissing)

/-- The process return code produced by `uchrabvr_cli.run_once`: `1` when
`start()` raises `ValueError`, the object's `return_code` when the run
completes; any other exception escapes (`none`: no orderly return code). -/
def runOnceCode (table : List PSCodes) (cfgMissing : Bool) (rows : List Rec) :
    Option Nat :=
  match runUchrabvr table cfgMissing rows with
  | .error ⟨.valueError, _⟩ => some 1
  | .error _ => none
  | .ok g => some g.return_code

/-! ## Part 4: the Tax-Balance Checker (`Uder`, SRC/uder.py) -/

/-- `UderStructure`: one row of `UDER.txt`. -/
structure UderS where
  nrec : String
  tabn : String
  mes : String
  vidud : String
  sumud : String
  clsch : String
  datav : String
  vidoplud : String
deriving DecidableEq, Repr

/-- `UderGrouped`: an `UderStructure` with the added month grouping key. -/
structure UderGrouped extends UderS where
  group_vidud : String
deriving DecidableEq, Repr

/-- `VIDOPS_OF_TAX`: the recognized tax-withholding codes. -/
def VIDOPS_OF_TAX : List String := ["13", "182"]

/-- `Uder.normalize_mount`: `"" → "00"`, one char → zero-padded, longer →
first two characters. -/
def normalize_mount (mount : String) : String :=
  if mount.length = 0 then "00"
  else if mount.length = 1 then "0" ++ mount
  else String.mk (mount.data.take 2)

/-- Python's `<` on strings: lexicographic comparison of code points. -/
def listLtChars : List Char → List Char → Bool
  | [], [] => false
  | [], _ :: _ => true
  | _ :: _, [] => false
  | a :: as, b :: bs =>
    if a.toNat < b.toNat then true
    else if b.toNat < a.toNat then false
    else listLtChars as bs

/-- Python's `<` on strings. -/
def pyStrLt (a b : String) : Bool := listLtChars a.data b.data

/-- Python's `<=` on strings (the order is total). -/
def pyStrLe (a b : String) : Bool := !(pyStrLt b a)

/-- `Uder.create_group_key`: the normalized month, or `None` when the record
is not a recognized tax withholding or its month exceeds the normalized
`last_mount` cutoff (Python string comparison). -/
def create_group_key (normalize_last_mount : String) (u : UderS) : Option String :=
  let nm := normalize_mount u.mes
  if u.vidud ∉ VIDOPS_OF_TAX ∨ pyStrLt normalize_last_mount nm then none
  else some nm

/-- Insert `a` after every already-placed element `b` with `le b a` (the
stable insertion step). -/
def insertSortedBy {α : Type} (le : α → α → Bool) (a : α) : List α → List α
  | [] => [a]
  | b :: bs => if le b a then b :: insertSortedBy le a bs else a :: b :: bs

/-- Stable ascending sort (insertion sort).  Python's `list.sort` is stable,
and for the total preorder used here a stable sort's output is unique, so this
models `filtered_uders.sort(key=...)` exactly. -/
def stableSortBy {α : Type} (le : α → α → Bool) (l : List α) : List α :=
  l.foldl (fun acc a => insertSortedBy le a acc) []

/-- `Uder.filter_sort_by_group`: keep the records with a group key, extend
them with it, and sort by it (stable, ascending, lexicographic). -/
def filter_sort_by_group (normalize_last_mount : String) (person_uders : List UderS) :
    List UderGrouped :=
  stableSortBy (fun a b => pyStrLe a.group_vidud b.group_vidud)
    (person_uders.filterMap
      (fun u => (create_group_key normalize_last_mount u).map (fun k => ⟨u, k⟩)))

/-- One informational residual line (`Uder.check_summa`'s `logging.info`
message: employee tab number, month, residual). -/
structure ResidualLine where
  tabn : String
  mount : String
  diff : String
deriving DecidableEq, Repr

/-- `Uder.check_summa`: emit one line when the month's sum is not `"0.00"`. -/
def check_summa (summa : String) (u : UderGrouped) : List ResidualLine :=
  if summa ≠ "0.00" then [⟨u.tabn, u.group_vidud, summa⟩] else []

/-- The walk of `Uder.validate_person_groups` after its first record: on a
month change, check the previous month's sum (against the previous record,
`filtered_uders[i - 1]`) and restart the accumulator; at the end check the
tail against the last record.  A `ValueError` from `sum_str` propagates
(lines already logged before an abort are not modelled). -/
def vpgGo (prevU : UderGrouped) (summa : String) :
    List UderGrouped → Except Err (List ResidualLine)
  | [] => .ok (check_summa summa prevU)
  | u :: us =>
    if u.group_vidud ≠ prevU.group_vidud then
      match sum_str "0.00" u.sumud with
      | .error e => .error e
      | .ok summa' =>
        match vpgGo u summa' us with
        | .error e => .error e
        | .ok lines => .ok (check_summa summa prevU ++ lines)
    else
      match sum_str summa u.sumud with
      | .error e => .error e
      | .ok summa' => vpgGo u summa' us

/-- `Uder.validate_person_groups`: zero filtered records produce no output at
all (the final check is guarded by `len(filtered_uders) != 0`). -/
def validate_person_groups (filtered : List UderGrouped) :
    Except Err (List ResidualLine) :=
  match filtered with
  | [] => .ok []
  | u :: us =>
    match sum_str "0.00" u.sumud with
    | .error e => .error e
    | .ok s => vpgGo u s us

/-- `Uder.processing_person` for one employee group, given the raw
`last_mount` parameter (normalized as in `Uder._normalize_data`). -/
def uderProcessPerson (last_mount : String) (person : List UderS) :
    Except Err (List ResidualLine) :=
  validate_person_groups (filter_sort_by_group (normalize_mount last_mount) person)

/-! ## Sanity checks of the decimal model -/

example : sum_str "0.005" "0" = .ok "0.00" := by decide
example : sum_str "0.015" "0" = .ok "0.02" := by decide
example : sum_str "abc" "1.00" = .error .valueError := by decide
example : sum_str "NaN" "1" = .ok "NaN" := by decide

/-! ## Claims -/

/-- Claim C1: for an employee group of a primary-coded record
`{nrec=10, vidop=18, period (Jan1, Jan31)}` and a secondary-coded record
`{nrec=11, vidop=305, summaval=100.00, same period}` under a table mapping
primary `"18"` to secondary `"305"`, the run generates exactly the single
statement `UPDATE uchrabvr WHERE nrec=10 SET summa:=100.00;` and finishes
with return code 0 (configuration file present, hence initial code 0). -/
theorem claim_C1 :
    runUchrabvr [⟨.tup ["18"], .tup ["305"]⟩] false
      [⟨"10", "T", "1", "", "18", "0.00", "0.00", "01.01", "31.01", "100"⟩,
       ⟨"11", "T", "1", "", "305", "0.00", "100.00", "01.01", "31.01", "100"⟩] =
    .ok ⟨0, ["UPDATE uchrabvr WHERE nrec=10 SET summa:=100.00;"], []⟩ := by
  decide

/-- Claim C2, counterexample: a run over an empty input with the configuration
file missing completes with no diagnostic at all, yet its return code is 1 —
`Uchrabvr._init_config` stores the result of `Common.fill_in_parameters`
(1 when `uchrabvr.cfg` is absent) in `return_code`, so "nonzero iff some
NoPrimaryFound/AmbiguousPrimary/Uncovered diagnostic was raised" is false. -/
theorem claim_C2_counterexample :
    runUchrabvr PRIMARY_SECONDARY_PAYCODES true [] = .ok ⟨1, [], []⟩ := by
  decide

/-- Claim C4, counterexample: a table whose secondary codes are pairwise
distinct across entries (`"305"` and `"306"`) still yields a non-empty
duplicate list, because `validate_unique_secondary_codes` collects primary
codes into the same `all_codes` accumulator — the repeated primary `"18"`
is reported. -/
theorem claim_C4_counterexample :
    validate_unique_secondary_codes
      [⟨.tup ["18"], .tup ["305"]⟩, ⟨.tup ["18"], .tup ["306"]⟩] = ["18"] ∧
    (["305", "306"] : List String).Nodup := by
  constructor
  · decide
  · decide

/-- The accumulation loop of `validate_unique_secondary_codes` returns no
duplicate exactly when no walked code was seen before and the walked codes are
pairwise distinct. -/
theorem collectDups_eq_nil (cs : List String) :
    ∀ seen, collectDups seen cs = [] ↔ (∀ c ∈ cs, c ∉ seen) ∧ cs.Nodup := by
  induction cs with
  | nil => intro seen; simp [collectDups]
  | cons c cs ih =>
    intro seen
    by_cases h : c ∈ seen
    · simp only [collectDups, if_pos h]
      constructor
      · intro hco; exact absurd hco (List.cons_ne_nil _ _)
      · rintro ⟨h1, _⟩; exact absurd h (h1 c (List.mem_cons_self c cs))
    · simp only [collectDups, if_neg h]
      rw [ih (c :: seen)]
      simp only [List.nodup_cons]
      constructor
      · rintro ⟨h1, h2⟩
        refine ⟨fun x hx => ?_, ?_, h2⟩
        · rcases List.mem_cons.mp hx with rfl | hx'
          · exact h
          · exact fun hs => (h1 x hx') (List.mem_cons_of_mem _ hs)
        · intro hc; exact (h1 c hc) (List.mem_cons_self _ _)
      · rintro ⟨h1, hc, h2⟩
        refine ⟨fun x hx hxc => ?_, h2⟩
        rcases List.mem_cons.mp hxc with rfl | hs
        · exact hc hx
        · exact h1 x (List.mem_cons_of_mem _ hx) hs

/-- Claim C4, amended: the duplicate list returned by
`validate_unique_secondary_codes` is empty exactly when the primary and
secondary codes of all entries — normalized and walked in order — are pairwise
distinct; it is non-empty whenever any code repeats, whether the repeat
involves a secondary code or a primary one. -/
theorem claim_C4 (vv : List PSCodes) :
    validate_unique_secondary_codes vv = [] ↔ (flatCodes vv).Nodup := by
  unfold validate_unique_secondary_codes
  rw [collectDups_eq_nil]
  simp

/-- Claim C3, counterexample: a group holding the single record
`{nrec=10, vidop=18}` under the program's real code table.  `"18"` appears as
a primary code of the table (it has a rule), yet — because it participated in
no successful match — `control_processing_completion` reports it as
`Uncovered` and sets the return code to 1, refuting "records whose code does
have a rule are never reported as Uncovered". -/
theorem claim_C3_counterexample :
    runUchrabvr PRIMARY_SECONDARY_PAYCODES false
      [⟨"10", "T", "1", "", "18", "0.00", "0.00", "01.01", "31.01", "100"⟩] =
    .ok ⟨1, [], [.uncovered "T" "18"]⟩ ∧
    "18" ∈ flatCodes PRIMARY_SECONDARY_PAYCODES := by
  constructor
  · decide
  · decide

/-- Claim C8: in the Tax-Balance Checker, an employee with qualifying records
of amounts `100.00` and `-90.00` in one normalized month (`"5" → "05"`, within
the `last_mount = 6` cutoff) yields exactly one informational residual line
reporting `10.00` for that employee and month; and an employee with zero
qualifying records (no record passing `create_group_key`) produces no output
at all — not even a zero-residual line. -/
theorem claim_C8 :
    (uderProcessPerson "6"
      [⟨"1", "T1", "5", "13", "100.00", "77", "", ""⟩,
       ⟨"2", "T1", "5", "13", "-90.00", "77", "", ""⟩] =
      .ok [⟨"T1", "05", "10.00"⟩]) ∧
    ∀ last_mount persons,
      (∀ u ∈ persons, create_group_key (normalize_mount last_mount) u = none) →
      uderProcessPerson last_mount persons = .ok [] := by
  constructor
  · decide
  · intro last_mount persons h
    unfold uderProcessPerson filter_sort_by_group
    have hfm : persons.filterMap
        (fun u => (create_group_key (normalize_mount last_mount) u).map
          (fun k => UderGrouped.mk u k)) = [] := by
      rw [List.filterMap_eq_nil_iff]
      intro u hu
      rw [h u hu]
      rfl
    rw [hfm]
    rfl

/-- Claim C8, witness for the quantified part: a single record whose
withholding code `99` is not a recognized tax code qualifies nowhere, and the
checker emits nothing. -/
theorem claim_C8_witness :
    (∀ u ∈ [(⟨"1", "T1", "5", "99", "100.00", "77", "", ""⟩ : UderS)],
      create_group_key (normalize_mount "6") u = none) ∧
    uderProcessPerson "6" [⟨"1", "T1", "5", "99", "100.00", "77", "", ""⟩] = .ok [] :=
  ⟨by decide, claim_C8.2 "6" _ (by decide)⟩

/-- Erase the `summa` field (the comparison mask for claim C9: two input
streams are "identical except in `summa`" when their images under this map are
equal). -/
def eraseSumma (r : Rec) : Rec := { r with summa := "" }

/-- Claim C9: runs on two input streams that agree on every field except
`summa` are indistinguishable — `Uchrabvr.start` overwrites each record's
`summa` with `"0.00"` at stream level, before grouping and matching, so the
input `summa` values never influence the generated statements, the
diagnostics, the return code, or an abort. -/
theorem claim_C9 (table : List PSCodes) (cfgMissing : Bool) (rows1 rows2 : List Rec)
    (h : rows1.map eraseSumma = rows2.map eraseSumma) :
    runUchrabvr table cfgMissing rows1 = runUchrabvr table cfgMissing rows2 ∧
    runOnceCode table cfgMissing rows1 = runOnceCode table cfgMissing rows2 := by
  have hcomp : (ingest ∘ eraseSumma) = ingest := funext fun r => rfl
  have key : rows1.map ingest = rows2.map ingest := by
    rw [← hcomp, ← List.map_map, ← List.map_map, h]
  have h1 : runUchrabvr table cfgMissing rows1 = runUchrabvr table cfgMissing rows2 := by
    unfold runUchrabvr uchrabvrStart
    rw [key]
  exact ⟨h1, by unfold runOnceCode; rw [h1]⟩

/-- Claim C9, witness: two one-record streams that differ only in the summa
field (`1.23` against `99.99`) produce identical run results. -/
theorem claim_C9_witness :
    ([(⟨"10", "T", "1", "", "18", "1.23", "0.00", "01.01", "31.01", "100"⟩ : Rec)].map
        eraseSumma =
      [(⟨"10", "T", "1", "", "18", "99.99", "0.00", "01.01", "31.01", "100"⟩ : Rec)].map
        eraseSumma) ∧
    runUchrabvr PRIMARY_SECONDARY_PAYCODES false
        [⟨"10", "T", "1", "", "18", "1.23", "0.00", "01.01", "31.01", "100"⟩] =
      runUchrabvr PRIMARY_SECONDARY_PAYCODES false
        [⟨"10", "T", "1", "", "18", "99.99", "0.00", "01.01", "31.01", "100"⟩] :=
  ⟨by decide, (claim_C9 PRIMARY_SECONDARY_PAYCODES false _ _ (by decide)).1⟩

/-- Claim C10, counterexample: both `"Infinity"` and `"-Infinity"` parse
successfully as `Decimal`s, yet `sum_str` raises `ValueError`: their addition
itself signals `InvalidOperation` inside the guarded region, so "InvalidAmount
is raised exactly when an operand is a non-string or fails to parse" is
false. -/
theorem claim_C10_counterexample :
    sum_str_py (.str "Infinity") (.str "-Infinity") = .error .valueError ∧
    (parseDecimal "Infinity").isSome ∧ (parseDecimal "-Infinity").isSome := by
  refine ⟨by decide, by decide, by decide⟩

/-- The addition of `d1` and `d2` signals `InvalidOperation` under the default
context: an sNaN operand, or infinities of opposite signs. -/
def addSignalsInvalid (d1 d2 : Dec) : Bool :=
  match d1, d2 with
  | ⟨_, .snan _⟩, _ => true
  | _, ⟨_, .snan _⟩ => true
  | ⟨s1, .inf⟩, ⟨s2, .inf⟩ => s1 != s2
  | _, _ => false

/-- The condition under which `sum_str` raises `ValueError` (claim C10 as
amended): a non-string operand, an operand that fails to parse, or operands
that parse but whose addition itself signals `InvalidOperation`. -/
def raisesValueError (v1 v2 : PyVal) : Prop :=
  match v1, v2 with
  | .str a, .str b =>
    parseDecimal a = none ∨ parseDecimal b = none ∨
      ∃ d1 d2, parseDecimal a = some d1 ∧ parseDecimal b = some d2 ∧
        addSignalsInvalid d1 d2 = true
  | _, _ => True

/-- Finite-by-finite context addition never signals `InvalidOperation` (its
only error is `Overflow`). -/
theorem addFinite_ne_invalidOp (s1 : Bool) (c1 : Nat) (e1 : Int) (s2 : Bool)
    (c2 : Nat) (e2 : Int) : addFinite s1 c1 e1 s2 c2 e2 ≠ .error .invalidOp := by
  intro h
  unfold addFinite at h
  dsimp only at h
  split at h <;> split at h <;> simp_all

/-- `quantize2` never produces a `ValueError`: its failures are unhandled
`InvalidOperation`s, raised outside `sum_str`'s guarded region. -/
theorem quantize2_ne_valueError (d : Dec) : quantize2 d ≠ .error .valueError := by
  obtain ⟨s, k⟩ := d
  intro h
  cases k <;> unfold quantize2 at h <;> dsimp only at h
  case finite c e => split at h <;> split at h <;> simp_all
  case inf => simp_all
  case qnan p => simp_all
  case snan p => simp_all

/-- Context addition signals `InvalidOperation` exactly under
`addSignalsInvalid`. -/
theorem addCtx_invalidOp_iff (d1 d2 : Dec) :
    addCtx d1 d2 = .error .invalidOp ↔ addSignalsInvalid d1 d2 = true := by
  obtain ⟨s1, k1⟩ := d1
  obtain ⟨s2, k2⟩ := d2
  cases k1 <;> cases k2 <;> cases s1 <;> cases s2 <;>
    simp [addCtx, addSignalsInvalid, addFinite_ne_invalidOp]

/-- Claim C10, amended: `sum_str` (with its `isinstance` guard) raises
`ValueError` exactly when an operand is a non-string, fails to parse as a
`Decimal`, or the addition itself signals `InvalidOperation` (opposite
infinities or a signaling NaN); for operands that parse but whose sum cannot
be quantized to two fractional digits — `"Infinity"`, or magnitudes whose
quantized coefficient would exceed the 28-digit precision such as `"1e30"` —
the call instead ends with the unhandled `decimal.InvalidOperation` of the
unguarded quantize step. -/
theorem claim_C10 :
    (∀ v1 v2, sum_str_py v1 v2 = .error .valueError ↔ raisesValueError v1 v2) ∧
    sum_str "Infinity" "1" = .error .invalidOperation ∧
    sum_str "1e30" "0" = .error .invalidOperation := by
  refine ⟨?_, by decide, by decide⟩
  intro v1 v2
  cases v1 with
  | nonStr => simp [sum_str_py, raisesValueError]
  | str a =>
    cases v2 with
    | nonStr => simp [sum_str_py, raisesValueError]
    | str b =>
      simp only [sum_str_py, raisesValueError]
      unfold sum_str
      cases ha : parseDecimal a with
      | none => simp [ha]
      | some d1 =>
        cases hb : parseDecimal b with
        | none => simp [ha, hb]
        | some d2 =>
          simp only [ha, hb]
          have hRHS : (some d1 = none ∨ some d2 = none ∨
              ∃ d1' d2', some d1 = some d1' ∧ some d2 = some d2' ∧
                addSignalsInvalid d1' d2' = true) ↔
              addSignalsInvalid d1 d2 = true := by
            simp
          rw [hRHS]
          by_cases hsig : addSignalsInvalid d1 d2 = true
          · rw [(addCtx_invalidOp_iff d1 d2).mpr hsig]
            simp [hsig]
          · rw [iff_false_intro hsig]
            have hac : addCtx d1 d2 ≠ .error .invalidOp :=
              fun hc => hsig ((addCtx_invalidOp_iff d1 d2).mp hc)
            cases hAC : addCtx d1 d2 with
            | error e =>
              cases e with
              | invalidOp => exact absurd hAC hac
              | overflow => simp
            | ok d =>
              dsimp only
              cases hq : quantize2 d with
              | error e =>
                rw [iff_false]
                intro h
                have he : e = Err.valueError := by
                  injection h
                rw [he] at hq
                exact quantize2_ne_valueError d hq
              | ok q => simp

/-- Claim C6: when a secondary record's candidate list has more than one
entry, the step records an `AmbiguousPrimary` diagnostic, leaves every record
of the group unchanged (`person` and `processed` untouched, no statement
added), sets the return code to 1, and processing continues with the
remaining records of the group. -/
theorem claim_C6 (table : List PSCodes) (idx : String × String × String → List Nat)
    (r : Rec) (rest : List Rec) (st : PState) (v : PSCodes)
    (hf : table.find? (fun e => pyIn r.vidop e.secondary) = some v)
    (hc : 1 < (find_uchrabvr idx v.primary r.datan r.datok).length) :
    processing_vidops table idx (r :: rest) st =
      processing_vidops table idx rest
        ⟨st.person, st.processed,
         ⟨1, st.g.SQL_update_queries,
          st.g.diags ++ [.ambiguous r.tabn r.vidop r.datan r.datok
            (normalize_tuple_str v.primary)]⟩⟩ := by
  have hstep : pvStep table idx st r = .ok
      ⟨st.person, st.processed,
       ⟨1, st.g.SQL_update_queries,
        st.g.diags ++ [.ambiguous r.tabn r.vidop r.datan r.datok
          (normalize_tuple_str v.primary)]⟩⟩ := by
    unfold pvStep
    rw [hf]
    dsimp only
    unfold update_uchrabvr
    rcases hfind : find_uchrabvr idx v.primary r.datan r.datok with _ | ⟨i, _ | ⟨j, t⟩⟩
    · rw [hfind] at hc; simp at hc
    · rw [hfind] at hc; simp at hc
    · rfl
  conv_lhs => unfold processing_vidops
  rw [hstep]

/-- The grouping loop distributes over stream concatenation: consuming
`xs ++ ys` is consuming `xs`, then continuing with `ys` from the reached key,
pending group and state (an abort while consuming `xs` is final). -/
theorem startLoop_append (table : List PSCodes) (xs ys : List Rec) :
    ∀ c p g, startLoop table (xs ++ ys) c p g =
      match startLoop table xs c p g with
      | .error a => .error a
      | .ok (c', p', g') => startLoop table ys c' p' g' := by
  induction xs with
  | nil => intro c p g; rfl
  | cons r rs ih =>
    intro c p g
    simp only [List.cons_append, startLoop]
    by_cases hcl : r.clsch ≠ c
    · simp only [if_pos hcl]
      cases hpp : processing_person table p g with
      | error a => rfl
      | ok g' => dsimp only; exact ih r.clsch [r] g'
    · simp only [if_neg hcl]
      exact ih c (p ++ [r]) g

/-- The abort value ends with a `SumNotNumeric` diagnostic carrying both raw
amount values (the log line written just before `update_primary_uchrabvr`
re-raises). -/
def endsWithSumDiag (a : Abort) : Prop :=
  ∃ t v s1 s2, a.state.diags.getLast? = some (.sumNotNumeric t v s1 s2)

/-- A `ValueError` abort of `update_primary_uchrabvr` has just logged a
`SumNotNumeric` diagnostic. -/
theorem abort_update_primary (i : Nat) (sec : Rec) (st : PState) (a : Abort)
    (h : update_primary_uchrabvr i sec st = .error a) (he : a.err = .valueError) :
    endsWithSumDiag a := by
  unfold update_primary_uchrabvr at h
  cases hg : st.person.get? i with
  | none => rw [hg] at h; simp at h
  | some prim =>
    rw [hg] at h
    dsimp only at h
    cases hs : sum_str prim.summa sec.summaval with
    | ok s => rw [hs] at h; simp at h
    | error e =>
      rw [hs] at h
      cases e with
      | valueError =>
        have ha : a = ⟨.valueError,
            { st.g with diags := st.g.diags ++
                [.sumNotNumeric sec.tabn prim.vidop prim.summa sec.summaval] }⟩ := by
          injection h with h'
          exact h'.symm
        rw [ha]
        exact ⟨sec.tabn, prim.vidop, prim.summa, sec.summaval, List.getLast?_concat _⟩
      | invalidOperation =>
        have ha : a = ⟨.invalidOperation, st.g⟩ := by
          injection h with h'
          exact h'.symm
        rw [ha] at he
        simp at he
      | overflow =>
        have ha : a = ⟨.overflow, st.g⟩ := by
          injection h with h'
          exact h'.symm
        rw [ha] at he
        simp at he

/-- A `ValueError` abort of `update_uchrabvr` comes from
`update_primary_uchrabvr`. -/
theorem abort_update (idx : String × String × String → List Nat) (pv : StrTup)
    (sec : Rec) (st : PState) (a : Abort)
    (h : update_uchrabvr idx pv sec st = .error a) (he : a.err = .valueError) :
    endsWithSumDiag a := by
  unfold update_uchrabvr at h
  rcases hfind : find_uchrabvr idx pv sec.datan sec.datok with _ | ⟨i, _ | ⟨j, t⟩⟩ <;>
    rw [hfind] at h
  · simp at h
  · exact abort_update_primary i sec st a h he
  · simp at h

/-- A `ValueError` abort of one `processing_vidops` step comes from
`update_primary_uchrabvr`. -/
theorem abort_pvStep (table : List PSCodes) (idx : String × String × String → List Nat)
    (st : PState) (r : Rec) (a : Abort)
    (h : pvStep table idx st r = .error a) (he : a.err = .valueError) :
    endsWithSumDiag a := by
  unfold pvStep at h
  cases hfind : table.find? (fun v => pyIn r.vidop v.secondary) with
  | none => rw [hfind] at h; simp at h
  | some v => rw [hfind] at h; exact abort_update idx v.primary r st a h he

/-- A `ValueError` abort of `processing_vidops` has just logged a
`SumNotNumeric` diagnostic. -/
theorem abort_processing_vidops (table : List PSCodes)
    (idx : String × String × String → List Nat) :
    ∀ (rs : List Rec) (st : PState) (a : Abort),
      processing_vidops table idx rs st = .error a → a.err = .valueError →
      endsWithSumDiag a := by
  intro rs
  induction rs with
  | nil => intro st a h he; simp [processing_vidops] at h
  | cons r rs ih =>
    intro st a h he
    unfold processing_vidops at h
    cases hs : pvStep table idx st r with
    | error a' =>
      rw [hs] at h
      dsimp only at h
      have : a' = a := by injection h
      rw [this] at hs
      exact abort_pvStep table idx st r a hs he
    | ok st' =>
      rw [hs] at h
      dsimp only at h
      exact ih st' a h he

/-- A `ValueError` abort of a whole group comes from the resolution pass. -/
theorem abort_processing_person (table : List PSCodes) (group : List Rec)
    (g : GState) (a : Abort)
    (h : processing_person table group g = .error a) (he : a.err = .valueError) :
    endsWithSumDiag a := by
  unfold processing_person at h
  by_cases hge : group.isEmpty
  · rw [if_pos hge] at h; simp at h
  · rw [if_neg hge] at h
    cases hv : processing_vidops table (indexByKey group) group ⟨group, [], g⟩ with
    | error a' =>
      rw [hv] at h
      dsimp only at h
      have : a' = a := by injection h
      rw [this] at hv
      exact abort_processing_vidops table (indexByKey group) group ⟨group, [], g⟩ a hv he
    | ok st => rw [hv] at h; simp at h

/-- A `ValueError` abort of the grouping loop has just logged a
`SumNotNumeric` diagnostic. -/
theorem abort_startLoop (table : List PSCodes) :
    ∀ (rows : List Rec) (c : String) (p : List Rec) (g : GState) (a : Abort),
      startLoop table rows c p g = .error a → a.err = .valueError →
      endsWithSumDiag a := by
  intro rows
  induction rows with
  | nil => intro c p g a h he; simp [startLoop] at h
  | cons r rs ih =>
    intro c p g a h he
    unfold startLoop at h
    by_cases hcl : r.clsch ≠ c
    · rw [if_pos hcl] at h
      cases hpp : processing_person table p g with
      | error a' =>
        rw [hpp] at h
        dsimp only at h
        have : a' = a := by injection h
        rw [this] at hpp
        exact abort_processing_person table p g a hpp he
      | ok g' =>
        rw [hpp] at h
        dsimp only at h
        exact ih r.clsch [r] g' a h he
    · rw [if_neg hcl] at h
      exact ih c (p ++ [r]) g a h he

/-- Claim C5: when the accumulation of a secondary amount fails with
`ValueError` (`InvalidAmount`) somewhere while consuming a stream prefix, a
`SumNotNumeric` diagnostic carrying both raw values is the last thing logged,
the failure propagates so the whole batch aborts — appending any further
records (later groups) leaves the abort unchanged, so no later record is
processed — and the CLI's return code for the run is 1. -/
theorem claim_C5 (table : List PSCodes) (cfgMissing : Bool)
    (rows1 rows2 : List Rec) (a : Abort)
    (h : startLoop table (rows1.map ingest) "-1" [] (initState cfgMissing) = .error a)
    (he : a.err = .valueError) :
    runUchrabvr table cfgMissing (rows1 ++ rows2) = .error a ∧
    runOnceCode table cfgMissing (rows1 ++ rows2) = some 1 ∧
    endsWithSumDiag a := by
  have h1 : runUchrabvr table cfgMissing (rows1 ++ rows2) = .error a := by
    unfold runUchrabvr uchrabvrStart
    rw [List.map_append, startLoop_append, h]
  refine ⟨h1, ?_, abort_startLoop table (rows1.map ingest) "-1" [] (initState cfgMissing) a h he⟩
  unfold runOnceCode
  rw [h1]
  obtain ⟨e, st⟩ := a
  dsimp only at he
  rw [he]

/-- Concrete code table for the claim C6 witness: primaries `18` and `48`
share secondary `305`. -/
def tableC6 : List PSCodes := [⟨.tup ["18", "48"], .tup ["305"]⟩]

/-- Concrete group for the claim C6 witness: two primary-coded records (`18`
and `48`) with the same period, and one secondary `305` record. -/
def groupC6 : List Rec :=
  [⟨"1", "T", "1", "", "18", "0.00", "0.00", "01.01", "31.01", "7"⟩,
   ⟨"2", "T", "1", "", "48", "0.00", "0.00", "01.01", "31.01", "7"⟩,
   ⟨"3", "T", "1", "", "305", "0.00", "5.00", "01.01", "31.01", "7"⟩]

/-- The secondary record of the claim C6 witness. -/
def secC6 : Rec := ⟨"3", "T", "1", "", "305", "0.00", "5.00", "01.01", "31.01", "7"⟩

/-- Claim C6, witness: both `18` and `48` match the secondary record's period,
so its candidate list has two entries and the step only records the
`AmbiguousPrimary` diagnostic and sets the return code. -/
theorem claim_C6_witness :
    (List.find? (fun e => pyIn "305" e.secondary) tableC6 =
      some ⟨.tup ["18", "48"], .tup ["305"]⟩) ∧
    (1 < (find_uchrabvr (indexByKey groupC6) (.tup ["18", "48"]) "01.01" "31.01").length) ∧
    processing_vidops tableC6 (indexByKey groupC6) [secC6] ⟨groupC6, [], ⟨0, [], []⟩⟩ =
      processing_vidops tableC6 (indexByKey groupC6) []
        ⟨groupC6, [],
         ⟨1, [], [] ++ [.ambiguous "T" "305" "01.01" "31.01"
           (normalize_tuple_str (.tup ["18", "48"]))]⟩⟩ :=
  ⟨by decide, by decide,
   claim_C6 tableC6 (indexByKey groupC6) secC6 [] ⟨groupC6, [], ⟨0, [], []⟩⟩
     ⟨.tup ["18", "48"], .tup ["305"]⟩ (by decide) (by decide)⟩

/-- Concrete code table for the claim C5 witness. -/
def tableC5 : List PSCodes := [⟨.tup ["18"], .tup ["305"]⟩]

/-- Concrete stream prefix for the claim C5 witness: employee `1` has a
secondary record whose `summaval` is the non-numeric `"abc"`; the group is
flushed when employee `2`'s first record arrives. -/
def rowsC5 : List Rec :=
  [⟨"10", "T", "1", "", "18", "0.00", "0.00", "01.01", "31.01", "1"⟩,
   ⟨"11", "T", "1", "", "305", "0.00", "abc", "01.01", "31.01", "1"⟩,
   ⟨"20", "T", "1", "", "18", "0.00", "0.00", "01.01", "31.01", "2"⟩]

/-- The abort produced by the claim C5 witness run. -/
def abortC5 : Abort := ⟨.valueError, ⟨0, [], [.sumNotNumeric "T" "18" "0.00" "abc"]⟩⟩

/-- Claim C5, witness: the `"abc"` amount aborts the batch while employee 1's
group is being processed; appending employee 2's remaining record changes
nothing, the CLI returns 1, and the last logged diagnostic is the
`SumNotNumeric` carrying `"0.00"` and `"abc"`. -/
theorem claim_C5_witness :
    (startLoop tableC5 (rowsC5.map ingest) "-1" [] (initState false) = .error abortC5) ∧
    abortC5.err = .valueError ∧
    (runUchrabvr tableC5 false
        (rowsC5 ++ [⟨"21", "T", "1", "", "305", "0.00", "1.00", "01.01", "31.01", "2"⟩]) =
      .error abortC5 ∧
    runOnceCode tableC5 false
        (rowsC5 ++ [⟨"21", "T", "1", "", "305", "0.00", "1.00", "01.01", "31.01", "2"⟩]) =
      some 1 ∧
    endsWithSumDiag abortC5) :=
  ⟨by decide, by decide,
   claim_C5 tableC5 false rowsC5
     [⟨"21", "T", "1", "", "305", "0.00", "1.00", "01.01", "31.01", "2"⟩]
     abortC5 (by decide) (by decide)⟩

/-- A recoverable matching diagnostic: `NoPrimaryFound`, `AmbiguousPrimary` or
`Uncovered` (everything except the fatal `SumNotNumeric`). -/
def isMatchDiag (d : Diag) : Bool :=
  match d with
  | .sumNotNumeric _ _ _ _ => false
  | _ => true

/-- The return-code invariant of a run with configuration-missing flag `cfg`:
the code is nonzero exactly when the configuration file was missing or some
diagnostic has been logged, and every logged diagnostic is one of the three
recoverable kinds. -/
def rcInv (cfg : Bool) (g : GState) : Prop :=
  (g.return_code ≠ 0 ↔ (cfg = true ∨ g.diags ≠ [])) ∧
  ∀ d ∈ g.diags, isMatchDiag d = true

/-- Logging one recoverable diagnostic while setting the return code to 1
preserves the invariant. -/
theorem rcInv_push (cfg : Bool) (g : GState) (d : Diag) (sql : List String)
    (hd : isMatchDiag d = true) (hi : rcInv cfg g) :
    rcInv cfg ⟨1, sql, g.diags ++ [d]⟩ := by
  constructor
  · simp
  · intro x hx
    rcases List.mem_append.mp hx with hx | hx
    · exact hi.2 x hx
    · rw [List.mem_singleton] at hx
      subst hx
      exact hd

/-- `update_primary_uchrabvr` preserves the return-code invariant (its success
path touches neither the return code nor the diagnostics). -/
theorem rcInv_update_primary (i : Nat) (sec : Rec) (st : PState) (st' : PState)
    (cfg : Bool) (h : update_primary_uchrabvr i sec st = .ok st')
    (hi : rcInv cfg st.g) : rcInv cfg st'.g := by
  unfold update_primary_uchrabvr at h
  cases hg : st.person.get? i with
  | none => rw [hg] at h; injection h with h'; subst h'; exact hi
  | some prim =>
    rw [hg] at h
    dsimp only at h
    cases hs : sum_str prim.summa sec.summaval with
    | ok s => rw [hs] at h; injection h with h'; subst h'; exact hi
    | error e => rw [hs] at h; cases e <;> simp at h

/-- `update_uchrabvr` preserves the return-code invariant: its two failure
branches log a recoverable diagnostic and set the code to 1. -/
theorem rcInv_update (idx : String × String × String → List Nat) (pv : StrTup)
    (sec : Rec) (st : PState) (st' : PState) (cfg : Bool)
    (h : update_uchrabvr idx pv sec st = .ok st') (hi : rcInv cfg st.g) :
    rcInv cfg st'.g := by
  unfold update_uchrabvr at h
  rcases hfind : find_uchrabvr idx pv sec.datan sec.datok with _ | ⟨i, _ | ⟨j, t⟩⟩ <;>
    rw [hfind] at h
  · dsimp only at h
    injection h with h'
    subst h'
    exact rcInv_push cfg st.g _ _ rfl hi
  · exact rcInv_update_primary i sec st st' cfg h hi
  · dsimp only at h
    injection h with h'
    subst h'
    exact rcInv_push cfg st.g _ _ rfl hi

/-- One resolution step preserves the return-code invariant. -/
theorem rcInv_pvStep (table : List PSCodes) (idx : String × String × String → List Nat)
    (st : PState) (r : Rec) (st' : PState) (cfg : Bool)
    (h : pvStep table idx st r = .ok st') (hi : rcInv cfg st.g) : rcInv cfg st'.g := by
  unfold pvStep at h
  cases hfind : table.find? (fun v => pyIn r.vidop v.secondary) with
  | none => rw [hfind] at h; injection h with h'; subst h'; exact hi
  | some v => rw [hfind] at h; exact rcInv_update idx v.primary r st st' cfg h hi

/-- The whole resolution pass preserves the return-code invariant. -/
theorem rcInv_processing_vidops (table : List PSCodes)
    (idx : String × String × String → List Nat) :
    ∀ (rs : List Rec) (st st' : PState) (cfg : Bool),
      processing_vidops table idx rs st = .ok st' → rcInv cfg st.g → rcInv cfg st'.g := by
  intro rs
  induction rs with
  | nil =>
    intro st st' cfg h hi
    unfold processing_vidops at h
    injection h with h'
    subst h'
    exact hi
  | cons r rs ih =>
    intro st st' cfg h hi
    unfold processing_vidops at h
    cases hs : pvStep table idx st r with
    | error a => rw [hs] at h; simp at h
    | ok st1 =>
      rw [hs] at h
      dsimp only at h
      exact ih st1 st' cfg h (rcInv_pvStep table idx st r st1 cfg hs hi)

/-- The SQL emitter touches neither the return code nor the diagnostics. -/
theorem rcInv_create_SQL (person : List Rec) (g : GState) (cfg : Bool)
    (hi : rcInv cfg g) : rcInv cfg (create_SQL_request person g) := hi

/-- The coverage pass preserves the return-code invariant: a non-empty set of
unprocessed records logs `uncovered` diagnostics and sets the code to 1. -/
theorem rcInv_control (person : List Rec) (processed : List String) (g : GState)
    (cfg : Bool) (hi : rcInv cfg g) :
    rcInv cfg (control_processing_completion person processed g) := by
  unfold control_processing_completion
  dsimp only
  rcases hmis : person.filter (fun r => decide (r.vidop ∉ processed)) with _ | ⟨m, ms⟩
  · rw [hmis]
    constructor
    · simpa using hi.1
    · intro d hd
      simp at hd
      exact hi.2 d hd
  · rw [hmis]
    constructor
    · simp [List.append_eq_nil]
    · intro d hd
      dsimp only at hd
      rcases List.mem_append.mp hd with hd | hd
      · exact hi.2 d hd
      · rcases List.mem_map.mp hd with ⟨r, _, hr⟩
        rw [← hr]
        rfl

/-- Processing one whole group preserves the return-code invariant. -/
theorem rcInv_processing_person (table : List PSCodes) (group : List Rec)
    (g g' : GState) (cfg : Bool) (h : processing_person table group g = .ok g')
    (hi : rcInv cfg g) : rcInv cfg g' := by
  unfold processing_person at h
  by_cases hge : group.isEmpty
  · rw [if_pos hge] at h; injection h with h'; subst h'; exact hi
  · rw [if_neg hge] at h
    cases hv : processing_vidops table (indexByKey group) group ⟨group, [], g⟩ with
    | error a => rw [hv] at h; simp at h
    | ok st =>
      rw [hv] at h
      dsimp only at h
      injection h with h'
      subst h'
      exact rcInv_control st.person st.processed _ cfg
        (rcInv_create_SQL st.person st.g cfg
          (rcInv_processing_vidops table (indexByKey group) group ⟨group, [], g⟩ st cfg hv hi))

/-- The grouping loop preserves the return-code invariant. -/
theorem rcInv_startLoop (table : List PSCodes) :
    ∀ (rows : List Rec) (c : String) (p : List Rec) (g : GState)
      (c' : String) (p' : List Rec) (g' : GState) (cfg : Bool),
      startLoop table rows c p g = .ok (c', p', g') → rcInv cfg g → rcInv cfg g' := by
  intro rows
  induction rows with
  | nil =>
    intro c p g c' p' g' cfg h hi
    unfold startLoop at h
    injection h with h'
    rw [Prod.mk.injEq] at h'
    rw [Prod.mk.injEq] at h'
    exact h'.2.2 ▸ hi
  | cons r rs ih =>
    intro c p g c' p' g' cfg h hi
    unfold startLoop at h
    by_cases hcl : r.clsch ≠ c
    · rw [if_pos hcl] at h
      cases hpp : processing_person table p g with
      | error a => rw [hpp] at h; simp at h
      | ok g1 =>
        rw [hpp] at h
        dsimp only at h
        exact ih r.clsch [r] g1 c' p' g' cfg h
          (rcInv_processing_person table p g g1 cfg hpp hi)
    · rw [if_neg hcl] at h
      exact ih c (p ++ [r]) g c' p' g' cfg h hi

/-- Claim C2, counterexample refines to this amended statement.  Claim C2,
amended: in a completed run the return code is nonzero exactly when the
configuration file was missing at startup (defaults used) or at least one
diagnostic was raised; and every diagnostic raised during a completed run is
one of `NoPrimaryFound`, `AmbiguousPrimary`, `Uncovered` (the fatal
`SumNotNumeric` never appears in a completed run: it always aborts). -/
theorem claim_C2 (table : List PSCodes) (cfgMissing : Bool) (rows : List Rec)
    (gfin : GState) (h : runUchrabvr table cfgMissing rows = .ok gfin) :
    (gfin.return_code ≠ 0 ↔ (cfgMissing = true ∨ gfin.diags ≠ [])) ∧
    ∀ d ∈ gfin.diags, isMatchDiag d = true := by
  have hinit : rcInv cfgMissing (initState cfgMissing) := by
    constructor
    · cases cfgMissing <;> simp [initState]
    · intro d hd; simp [initState] at hd
  unfold runUchrabvr uchrabvrStart at h
  cases hl : startLoop table (rows.map ingest) "-1" [] (initState cfgMissing) with
  | error a => rw [hl] at h; simp at h
  | ok t =>
    obtain ⟨c', p', g'⟩ := t
    rw [hl] at h
    dsimp only at h
    have h1 := rcInv_startLoop table (rows.map ingest) "-1" [] (initState cfgMissing)
      c' p' g' cfgMissing hl hinit
    exact rcInv_processing_person table p' g' gfin cfgMissing h h1

/-- Claim C2, witness: the single-group run of claim C1's scenario under the
real table with the configuration present completes with return code 0, no
diagnostics — matching the amended characterization. -/
theorem claim_C2_witness :
    (runUchrabvr PRIMARY_SECONDARY_PAYCODES false
      [⟨"10", "T", "1", "", "18", "0.00", "0.00", "01.01", "31.01", "100"⟩,
       ⟨"11", "T", "1", "", "305", "0.00", "100.00", "01.01", "31.01", "100"⟩] =
      .ok ⟨0, ["UPDATE uchrabvr WHERE nrec=10 SET summa:=100.00;"], []⟩) ∧
    (((⟨0, ["UPDATE uchrabvr WHERE nrec=10 SET summa:=100.00;"], []⟩ : GState).return_code ≠ 0 ↔
        (false = true ∨
          (⟨0, ["UPDATE uchrabvr WHERE nrec=10 SET summa:=100.00;"], []⟩ : GState).diags ≠ [])) ∧
      ∀ d ∈ (⟨0, ["UPDATE uchrabvr WHERE nrec=10 SET summa:=100.00;"], []⟩ : GState).diags,
        isMatchDiag d = true) :=
  ⟨by decide,
   claim_C2 PRIMARY_SECONDARY_PAYCODES false
     [⟨"10", "T", "1", "", "18", "0.00", "0.00", "01.01", "31.01", "100"⟩,
      ⟨"11", "T", "1", "", "305", "0.00", "100.00", "01.01", "31.01", "100"⟩]
     ⟨0, ["UPDATE uchrabvr WHERE nrec=10 SET summa:=100.00;"], []⟩ (by decide)⟩

/-- Whether a code-table field is a tuple (every secondary side of the real
`PRIMARY_SECONDARY_PAYCODES` is; a bare-string side would make Python's `in`
a substring test). -/
def isTupled : StrTup → Bool
  | .str _ => false
  | .tup _ => true

/-- The identifying fields of a record that the engine never rewrites
(`_replace` only touches `summa`). -/
def mapTV (r : Rec) : String × String := (r.tabn, r.vidop)

/-- Invariant of the per-group state during the resolution pass: the group's
records keep their tab numbers and vidops positionally, and every processed
code occurs somewhere in the code table. -/
def c3Inv (table : List PSCodes) (group : List Rec) (st : PState) : Prop :=
  st.person.map mapTV = group.map mapTV ∧
  ∀ x ∈ st.processed, x ∈ flatCodes table

/-- Replacing a list element by one with the same image leaves the mapped
list unchanged. -/
theorem map_set_same {α β : Type} (f : α → β) :
    ∀ (l : List α) (i : Nat) (x y : α),
      l.get? i = some x → f y = f x → (l.set i y).map f = l.map f := by
  intro l
  induction l with
  | nil => intro i x y h _; simp at h
  | cons a l ih =>
    intro i x y h hf
    cases i with
    | zero =>
      have ha : a = x := by simpa using h
      subst ha
      simp [List.set, hf]
    | succ i =>
      simp only [List.set, List.map_cons]
      rw [ih i x y (by simpa using h) hf]

/-- Membership after a set-insert into `processed_vidops`. -/
theorem mem_addProcessed (x v : String) (l : List String)
    (h : x ∈ addProcessed v l) : x = v ∨ x ∈ l := by
  unfold addProcessed at h
  by_cases hv : v ∈ l
  · rw [if_pos hv] at h
    exact Or.inr h
  · rw [if_neg hv] at h
    rcases List.mem_cons.mp h with h | h
    · exact Or.inl h
    · exact Or.inr h

/-- On a tuple-sided field, Python's `in` is exactly membership in the
normalized code list. -/
theorem pyIn_tup_mem (s : StrTup) (x : String) (ht : isTupled s = true)
    (h : pyIn x s = true) : x ∈ normalize_tuple_str s := by
  cases s with
  | str s0 => simp [isTupled] at ht
  | tup l => exact of_decide_eq_true h

/-- Every normalized code of a table entry occurs in the table's flattened
code list. -/
theorem mem_flatCodes (table : List PSCodes) (v : PSCodes) (hv : v ∈ table)
    (x : String) (hx : x ∈ normalize_tuple_str v.primary ++ normalize_tuple_str v.secondary) :
    x ∈ flatCodes table := by
  unfold flatCodes
  exact List.mem_flatten.mpr ⟨_, List.mem_map.mpr ⟨v, hv, rfl⟩, hx⟩

/-- A position produced by the lookup index points at a record of the group
carrying the looked-up vidop. -/
theorem indexByKey_get (group : List Rec) (k : String × String × String) (i : Nat)
    (h : i ∈ indexByKey group k) : ∃ r, group.get? i = some r ∧ r.vidop = k.1 := by
  unfold indexByKey at h
  rcases List.mem_map.mp h with ⟨p, hp, hpi⟩
  rcases p with ⟨j, r⟩
  rcases List.mem_filter.mp hp with ⟨hmem, hcond⟩
  dsimp only at hpi
  subst hpi
  have hget : group.get? j = some r := by
    rw [List.get?_eq_getElem?]
    exact List.mk_mem_enum_iff_getElem?.mp hmem
  refine ⟨r, hget, ?_⟩
  simp only [Bool.and_eq_true, beq_iff_eq] at hcond
  exact hcond.1.1

/-- A candidate position of `find_uchrabvr` (over the group's index) points at
a record of the group whose vidop belongs to the normalized primary
code-set. -/
theorem find_uchrabvr_get (group : List Rec) (pv : StrTup) (datan datok : String)
    (i : Nat) (h : i ∈ find_uchrabvr (indexByKey group) pv datan datok) :
    ∃ pv' ∈ normalize_tuple_str pv, ∃ r, group.get? i = some r ∧ r.vidop = pv' := by
  unfold find_uchrabvr at h
  rcases List.mem_flatten.mp h with ⟨l, hl, hil⟩
  rcases List.mem_map.mp hl with ⟨pv', hpv', hleq⟩
  rw [← hleq] at hil
  obtain ⟨r, hr, hvid⟩ := indexByKey_get group (pv', datan, datok) i hil
  exact ⟨pv', hpv', r, hr, hvid⟩

/-- `update_uchrabvr` preserves the coverage invariant: it only records the
matched entry's codes (the secondary record's vidop, which sits in the entry's
tuple-sided secondary set, and the found primary's vidop, which sits in the
entry's primary set). -/
theorem c3Inv_update (table : List PSCodes) (group : List Rec)
    (v : PSCodes) (hv : v ∈ table) (htup : isTupled v.secondary = true)
    (sec : Rec) (hsec : pyIn sec.vidop v.secondary = true) (st st' : PState)
    (h : update_uchrabvr (indexByKey group) v.primary sec st = .ok st')
    (hi : c3Inv table group st) : c3Inv table group st' := by
  unfold update_uchrabvr at h
  rcases hfind : find_uchrabvr (indexByKey group) v.primary sec.datan sec.datok with
    _ | ⟨i, _ | ⟨j, t⟩⟩ <;> rw [hfind] at h
  · dsimp only at h
    injection h with h'
    subst h'
    exact hi
  · dsimp only at h
    unfold update_primary_uchrabvr at h
    cases hg : st.person.get? i with
    | none => rw [hg] at h; injection h with h'; subst h'; exact hi
    | some prim =>
      rw [hg] at h
      dsimp only at h
      cases hs : sum_str prim.summa sec.summaval with
      | error e => rw [hs] at h; cases e <;> simp at h
      | ok s =>
        rw [hs] at h
        injection h with h'
        subst h'
        have hprim_vid : prim.vidop ∈ flatCodes table := by
          have hifind : i ∈ find_uchrabvr (indexByKey group) v.primary sec.datan sec.datok := by
            rw [hfind]
            exact List.mem_singleton.mpr rfl
          obtain ⟨pv', hpv', r0, hr0, hvid⟩ :=
            find_uchrabvr_get group v.primary sec.datan sec.datok i hifind
          have hσ : mapTV prim = mapTV r0 := by
            have h1 : (st.person.map mapTV).get? i = (group.map mapTV).get? i := by
              rw [hi.1]
            rw [List.get?_map, List.get?_map, hg, hr0] at h1
            exact Option.some.inj h1
          have : prim.vidop = pv' := by
            have := congrArg Prod.snd hσ
            simpa [mapTV, hvid] using this
          rw [this]
          exact mem_flatCodes table v hv pv' (List.mem_append_left _ hpv')
        have hsec_vid : sec.vidop ∈ flatCodes table :=
          mem_flatCodes table v hv sec.vidop
            (List.mem_append_right _ (pyIn_tup_mem v.secondary sec.vidop htup hsec))
        constructor
        · dsimp only
          rw [map_set_same mapTV st.person i prim { prim with summa := s } hg rfl]
          exact hi.1
        · dsimp only
          intro x hx
          rcases mem_addProcessed x sec.vidop _ hx with rfl | hx'
          · exact hsec_vid
          · rcases mem_addProcessed x prim.vidop _ hx' with rfl | hx''
            · exact hprim_vid
            · exact hi.2 x hx''
  · dsimp only at h
    injection h with h'
    subst h'
    exact hi

/-- One resolution step preserves the coverage invariant. -/
theorem c3Inv_pvStep (table : List PSCodes) (group : List Rec)
    (htup : ∀ v ∈ table, isTupled v.secondary = true) (st : PState) (r : Rec)
    (st' : PState) (h : pvStep table (indexByKey group) st r = .ok st')
    (hi : c3Inv table group st) : c3Inv table group st' := by
  unfold pvStep at h
  cases hfind : table.find? (fun v => pyIn r.vidop v.secondary) with
  | none => rw [hfind] at h; injection h with h'; subst h'; exact hi
  | some v =>
    rw [hfind] at h
    have hv := List.mem_of_find?_eq_some hfind
    have hsec := List.find?_some hfind
    exact c3Inv_update table group v hv (htup v hv) r hsec st st' h hi

/-- The whole resolution pass preserves the coverage invariant. -/
theorem c3Inv_processing_vidops (table : List PSCodes) (group : List Rec)
    (htup : ∀ v ∈ table, isTupled v.secondary = true) :
    ∀ (rs : List Rec) (st st' : PState),
      processing_vidops table (indexByKey group) rs st = .ok st' →
      c3Inv table group st → c3Inv table group st' := by
  intro rs
  induction rs with
  | nil =>
    intro st st' h hi
    unfold processing_vidops at h
    injection h with h'
    subst h'
    exact hi
  | cons r rs ih =>
    intro st st' h hi
    unfold processing_vidops at h
    cases hs : pvStep table (indexByKey group) st r with
    | error a => rw [hs] at h; simp at h
    | ok st1 =>
      rw [hs] at h
      dsimp only at h
      exact ih st1 st' h (c3Inv_pvStep table group htup st r st1 hs hi)

/-- The coverage pass logs an `uncovered` diagnostic for every group record
whose vidop is not in the processed set. -/
theorem control_mem_uncovered (person : List Rec) (processed : List String)
    (g : GState) (r' : Rec) (hr' : r' ∈ person) (hnp : r'.vidop ∉ processed) :
    Diag.uncovered r'.tabn r'.vidop ∈
      (control_processing_completion person processed g).diags := by
  unfold control_processing_completion
  dsimp only
  apply List.mem_append.mpr
  right
  apply List.mem_map.mpr
  exact ⟨r', List.mem_filter.mpr ⟨hr', decide_eq_true hnp⟩, rfl⟩

/-- Claim C3, amended: the coverage pass reports exactly the records whose
code joined no successful match in their group; in particular — proved here —
every record of a completed group whose payment code appears nowhere in the
code table (neither as a primary nor as a secondary code of any entry, all
secondary sides being tuples as in the real table) is reported `Uncovered`;
the original claim's converse is refuted by the counterexample (a record whose
code has a rule can also be reported). -/
theorem claim_C3 (table : List PSCodes)
    (htup : ∀ v ∈ table, isTupled v.secondary = true)
    (group : List Rec) (g g' : GState) (r : Rec)
    (h : processing_person table group g = .ok g')
    (hr : r ∈ group) (hnr : r.vidop ∉ flatCodes table) :
    Diag.uncovered r.tabn r.vidop ∈ g'.diags := by
  unfold processing_person at h
  by_cases hge : group.isEmpty
  · have hnil : group = [] := by
      cases group with
      | nil => rfl
      | cons a l => simp [List.isEmpty] at hge
    rw [hnil] at hr
    simp at hr
  · rw [if_neg hge] at h
    cases hv : processing_vidops table (indexByKey group) group ⟨group, [], g⟩ with
    | error a => rw [hv] at h; simp at h
    | ok st =>
      rw [hv] at h
      dsimp only at h
      injection h with h'
      subst h'
      have hinv : c3Inv table group st :=
        c3Inv_processing_vidops table group htup group ⟨group, [], g⟩ st hv
          ⟨rfl, by intro x hx; simp at hx⟩
      obtain ⟨j, hj⟩ := List.mem_iff_get?.mp hr
      have h1 : (st.person.map mapTV).get? j = (group.map mapTV).get? j := by
        rw [hinv.1]
      rw [List.get?_map, List.get?_map, hj] at h1
      cases hg' : st.person.get? j with
      | none => rw [hg'] at h1; simp at h1
      | some r' =>
        rw [hg'] at h1
        have hσ : mapTV r' = mapTV r := Option.some.inj h1
        have htabn : r'.tabn = r.tabn := congrArg Prod.fst hσ
        have hvidop : r'.vidop = r.vidop := congrArg Prod.snd hσ
        have hmem : r' ∈ st.person := by
          have := List.get?_mem hg'
          exact this
        have hnp : r'.vidop ∉ st.processed := by
          rw [hvidop]
          intro hcon
          exact hnr (hinv.2 r.vidop hcon)
        have := control_mem_uncovered st.person st.processed
          (create_SQL_request st.person st.g) r' hmem hnp
        rw [htabn, hvidop] at this
        exact this

/-- Claim C3, witness for the amended direction: payment code `999` appears
nowhere in the real table, and its record is reported `Uncovered`. -/
theorem claim_C3_witness :
    (∀ v ∈ PRIMARY_SECONDARY_PAYCODES, isTupled v.secondary = true) ∧
    (processing_person PRIMARY_SECONDARY_PAYCODES
      [⟨"10", "T", "1", "", "999", "0.00", "0.00", "01.01", "31.01", "100"⟩] ⟨0, [], []⟩ =
      .ok ⟨1, [], [.uncovered "T" "999"]⟩) ∧
    ("999" ∉ flatCodes PRIMARY_SECONDARY_PAYCODES) ∧
    Diag.uncovered "T" "999" ∈ (⟨1, [], [.uncovered "T" "999"]⟩ : GState).diags :=
  ⟨by decide, by decide, by decide,
   claim_C3 PRIMARY_SECONDARY_PAYCODES (by decide)
     [⟨"10", "T", "1", "", "999", "0.00", "0.00", "01.01", "31.01", "100"⟩]
     ⟨0, [], []⟩ ⟨1, [], [.uncovered "T" "999"]⟩
     ⟨"10", "T", "1", "", "999", "0.00", "0.00", "01.01", "31.01", "100"⟩
     (by decide) (by decide) (by decide)⟩

/-- Claim C7, counterexample: `sum_str "-0.001" "0"` returns `"-0.00"` — a
string that begins with the sign character although the value it denotes is
zero, not negative (the quantize step keeps the operand's sign while rounding
the magnitude to zero), refuting "a sign is included only when the result is
negative". -/
theorem claim_C7_counterexample :
    sum_str "-0.001" "0" = .ok "-0.00" ∧
    "-0.00".data.head? = some '-' ∧
    strValue "-0.00" = 0 := by
  refine ⟨by decide, by decide, ?_⟩
  have h1 : parseDecimal "-0.00" = some ⟨true, .finite 0 (-2)⟩ := by decide
  unfold strValue
  rw [h1]
  simp [decValue]

/-- Every character produced by `digitChar` is a digit. -/
theorem digitChar_isDigit (d : Nat) : (digitChar d).isDigit = true := by
  unfold digitChar
  have hk : d % 10 < 10 := Nat.mod_lt _ (by norm_num)
  set k := d % 10 with hkdef
  interval_cases k <;> rfl

/-- Every character produced by the digit expansion is a digit. -/
theorem natToCharsAux_digits :
    ∀ (fuel n : Nat) (c : Char), c ∈ natToCharsAux fuel n → c.isDigit = true := by
  intro fuel
  induction fuel with
  | zero => intro n c h; simp [natToCharsAux] at h
  | succ fuel ih =>
    intro n c h
    unfold natToCharsAux at h
    by_cases hn : n < 10
    · rw [if_pos hn, List.mem_singleton] at h
      subst h
      exact digitChar_isDigit n
    · rw [if_neg hn] at h
      rcases List.mem_cons.mp h with rfl | h'
      · exact digitChar_isDigit _
      · exact ih _ _ h'

/-- Every character of a padded coefficient string is a digit. -/
theorem finChars_digits (n : Nat) (c : Char) (h : c ∈ finChars n) :
    c.isDigit = true := by
  unfold finChars at h
  dsimp only at h
  rcases List.mem_append.mp h with h | h
  · exact natToCharsAux_digits _ _ _ h
  · rw [List.eq_of_mem_replicate h]
    rfl

/-- The padded coefficient string has at least three characters. -/
theorem finChars_length (n : Nat) : 3 ≤ (finChars n).length := by
  unfold finChars
  dsimp only
  rw [List.length_append, List.length_replicate]
  omega

/-- A lookup with digit default in a digit list yields a digit. -/
theorem getD_digit (l : List Char) (i : Nat)
    (hl : ∀ c ∈ l, c.isDigit = true) : (l.getD i '0').isDigit = true := by
  unfold List.getD
  cases h : l.get? i with
  | none => rfl
  | some c =>
    dsimp only [Option.getD]
    exact hl c (List.get?_mem h)

/-- The character-list layout of the string printed for a quantized value. -/
theorem decToStr_finite (sg : Bool) (c : Nat) (e : Int) :
    (decToStr ⟨sg, .finite c e⟩).data =
      (if sg then ['-'] else []) ++ ((finChars c).drop 2).reverse ++
        '.' :: [(finChars c).getD 1 '0', (finChars c).getD 0 '0'] := rfl

/-- The exact integer sum is symmetric in its operands. -/
theorem combInt_comm (s1 : Bool) (c1 : Nat) (e1 : Int) (s2 : Bool) (c2 : Nat)
    (e2 : Int) : combInt s1 c1 e1 s2 c2 e2 = combInt s2 c2 e2 s1 c1 e1 := by
  unfold combInt
  rw [min_comm e2 e1]
  exact Int.add_comm _ _

/-- The result sign is symmetric in the operands. -/
theorem addSign_comm (s1 : Bool) (c1 : Nat) (e1 : Int) (s2 : Bool) (c2 : Nat)
    (e2 : Int) : addSign s1 c1 e1 s2 c2 e2 = addSign s2 c2 e2 s1 c1 e1 := by
  unfold addSign
  rw [combInt_comm s2 c2 e2 s1 c1 e1, Bool.and_comm s2 s1]

/-- Finite context addition is commutative. -/
theorem addFinite_comm (s1 : Bool) (c1 : Nat) (e1 : Int) (s2 : Bool) (c2 : Nat)
    (e2 : Int) : addFinite s1 c1 e1 s2 c2 e2 = addFinite s2 c2 e2 s1 c1 e1 := by
  unfold addFinite
  rw [combInt_comm s2 c2 e2 s1 c1 e1, addSign_comm s2 c2 e2 s1 c1 e1, min_comm e2 e1]

/-- A successful finite addition yields a finite value carrying the computed
sign. -/
theorem addFinite_ok_shape (s1 : Bool) (c1 : Nat) (e1 : Int) (s2 : Bool) (c2 : Nat)
    (e2 : Int) (d : Dec) (h : addFinite s1 c1 e1 s2 c2 e2 = .ok d) :
    ∃ cr er, d = ⟨addSign s1 c1 e1 s2 c2 e2, .finite cr er⟩ := by
  unfold addFinite at h
  dsimp only at h
  split at h <;> split at h <;> simp at h <;> exact ⟨_, _, h.symm⟩

/-- A successful quantization of a finite value keeps its sign and has
exponent `-2`. -/
theorem quantize2_ok_shape (sg : Bool) (cr : Nat) (er : Int) (q : Dec)
    (h : quantize2 ⟨sg, .finite cr er⟩ = .ok q) :
    ∃ c2, q = ⟨sg, .finite c2 (-2)⟩ := by
  unfold quantize2 at h
  dsimp only at h
  split at h <;> split at h <;> simp at h <;> exact ⟨_, h.symm⟩

/-- The exact integer sum, rescaled by the common exponent, is the sum of the
operands' rational values. -/
theorem combInt_value (sa : Bool) (ca : Nat) (ea : Int) (sb : Bool) (cb : Nat)
    (eb : Int) :
    ((combInt sa ca ea sb cb eb : Int) : ℚ) * (10 : ℚ) ^ (min ea eb) =
      decValue ⟨sa, .finite ca ea⟩ + decValue ⟨sb, .finite cb eb⟩ := by
  have h10 : (10 : ℚ) ≠ 0 := by norm_num
  have h1 : ((10 : ℚ) ^ ((ea - min ea eb).toNat)) * (10 : ℚ) ^ (min ea eb) =
      (10 : ℚ) ^ ea := by
    rw [← zpow_natCast (10 : ℚ) (ea - min ea eb).toNat, ← zpow_add₀ h10]
    congr 1
    omega
  have h2 : ((10 : ℚ) ^ ((eb - min ea eb).toNat)) * (10 : ℚ) ^ (min ea eb) =
      (10 : ℚ) ^ eb := by
    rw [← zpow_natCast (10 : ℚ) (eb - min ea eb).toNat, ← zpow_add₀ h10]
    congr 1
    omega
  unfold combInt decValue
  cases sa <;> cases sb <;>
    (simp only [sgnInt, reduceIte]
     push_cast
     rw [add_mul, mul_assoc, mul_assoc, h1, h2]
     ring)

/-- The computed sign bit is set exactly for a negative exact sum or a zero
sum of two negative operands. -/
theorem addSign_true_iff (s1 : Bool) (c1 : Nat) (e1 : Int) (s2 : Bool) (c2 : Nat)
    (e2 : Int) :
    addSign s1 c1 e1 s2 c2 e2 = true ↔
      (combInt s1 c1 e1 s2 c2 e2 < 0 ∨
       (combInt s1 c1 e1 s2 c2 e2 = 0 ∧ s1 = true ∧ s2 = true)) := by
  unfold addSign
  by_cases hneg : combInt s1 c1 e1 s2 c2 e2 < 0
  · simp [hneg]
  · rw [if_neg hneg]
    by_cases hpos : 0 < combInt s1 c1 e1 s2 c2 e2
    · have hne : combInt s1 c1 e1 s2 c2 e2 ≠ 0 := by omega
      simp [hpos, hneg, hne]
    · have h0 : combInt s1 c1 e1 s2 c2 e2 = 0 := by omega
      simp [h0, Bool.and_eq_true]

/-- Extract the components of a finite parse. -/
theorem parsesFinite_elim (s : String) (h : parsesFinite s = true) :
    ∃ sg c e, parseDecimal s = some ⟨sg, .finite c e⟩ := by
  unfold parsesFinite at h
  cases hp : parseDecimal s with
  | none => rw [hp] at h; simp at h
  | some d =>
    rw [hp] at h
    obtain ⟨sg, k⟩ := d
    cases k with
    | finite c e => exact ⟨sg, c, e, rfl⟩
    | inf => simp at h
    | qnan p => simp at h
    | snan p => simp at h

/-- The sign bit of a parsed string (false when it does not parse). -/
def strSign (s : String) : Bool :=
  match parseDecimal s with
  | some d => d.sign
  | none => false

/-- Claim C7, amended: on operands that parse as finite decimal numbers,
`sum_str` is commutative (also in its failures); whenever it returns a string,
that string has exactly two fractional digits; and it begins with the sign
character exactly when the exact sum of the operand values is negative, or is
zero with both operands negative zeros (the counterexample shows a signed
`-0.00` output for a zero result, which the original "only when negative"
claim excluded). -/
theorem claim_C7 (a b : String) (ha : parsesFinite a = true) (hb : parsesFinite b = true) :
    sum_str a b = sum_str b a ∧
    ∀ s, sum_str a b = .ok s →
      (∃ t u, s.data = t ++ '.' :: u ∧ u.length = 2 ∧ ∀ c ∈ u, c.isDigit = true) ∧
      (s.data.head? = some '-' ↔
        (strValue a + strValue b < 0 ∨
         (strValue a + strValue b = 0 ∧ strSign a = true ∧ strSign b = true))) := by
  obtain ⟨sa, ca, ea, hpa⟩ := parsesFinite_elim a ha
  obtain ⟨sb, cb, eb, hpb⟩ := parsesFinite_elim b hb
  have hVa : strValue a = decValue ⟨sa, .finite ca ea⟩ := by unfold strValue; rw [hpa]
  have hVb : strValue b = decValue ⟨sb, .finite cb eb⟩ := by unfold strValue; rw [hpb]
  have hSa : strSign a = sa := by unfold strSign; rw [hpa]
  have hSb : strSign b = sb := by unfold strSign; rw [hpb]
  constructor
  · unfold sum_str
    rw [hpa, hpb]
    dsimp only
    have hcm : addCtx ⟨sa, .finite ca ea⟩ ⟨sb, .finite cb eb⟩ =
        addCtx ⟨sb, .finite cb eb⟩ ⟨sa, .finite ca ea⟩ := addFinite_comm sa ca ea sb cb eb
    rw [hcm]
  · intro s hs
    unfold sum_str at hs
    rw [hpa, hpb] at hs
    dsimp only at hs
    cases hadd : addCtx ⟨sa, .finite ca ea⟩ ⟨sb, .finite cb eb⟩ with
    | error e => rw [hadd] at hs; cases e <;> simp at hs
    | ok d =>
      rw [hadd] at hs
      dsimp only at hs
      have hadd' : addFinite sa ca ea sb cb eb = .ok d := hadd
      obtain ⟨cr, er, hd⟩ := addFinite_ok_shape sa ca ea sb cb eb d hadd'
      subst hd
      cases hq : quantize2 ⟨addSign sa ca ea sb cb eb, .finite cr er⟩ with
      | error e => rw [hq] at hs; simp at hs
      | ok q =>
        rw [hq] at hs
        dsimp only at hs
        obtain ⟨c2, hq2⟩ := quantize2_ok_shape _ cr er q hq
        subst hq2
        have hsEq : s = decToStr ⟨addSign sa ca ea sb cb eb, .finite c2 (-2)⟩ := by
          injection hs with h'
          exact h'.symm
        subst hsEq
        have hvalue := combInt_value sa ca ea sb cb eb
        have hp10 : (0 : ℚ) < (10 : ℚ) ^ (min ea eb) :=
          zpow_pos (by norm_num : (0 : ℚ) < 10) _
        have hlt : combInt sa ca ea sb cb eb < 0 ↔ strValue a + strValue b < 0 := by
          rw [hVa, hVb, ← hvalue]
          constructor
          · intro h
            exact mul_neg_of_neg_of_pos (by exact_mod_cast h) hp10
          · intro h
            by_contra hge
            push_neg at hge
            have h0 : (0 : ℚ) ≤ ((combInt sa ca ea sb cb eb : Int) : ℚ) := by
              exact_mod_cast hge
            nlinarith
        have heq : combInt sa ca ea sb cb eb = 0 ↔ strValue a + strValue b = 0 := by
          rw [hVa, hVb, ← hvalue]
          constructor
          · intro h
            rw [h]
            simp
          · intro h
            rcases mul_eq_zero.mp h with h' | h'
            · exact_mod_cast h'
            · exact absurd h' (ne_of_gt hp10)
        have hiff : addSign sa ca ea sb cb eb = true ↔
            (strValue a + strValue b < 0 ∨
             (strValue a + strValue b = 0 ∧ strSign a = true ∧ strSign b = true)) := by
          rw [addSign_true_iff, hlt, heq, hSa, hSb]
        constructor
        · rw [decToStr_finite]
          refine ⟨(if addSign sa ca ea sb cb eb then ['-'] else []) ++
              ((finChars c2).drop 2).reverse,
            [(finChars c2).getD 1 '0', (finChars c2).getD 0 '0'], ?_, rfl, ?_⟩
          · rw [List.append_assoc]
          · intro c hc
            rcases List.mem_cons.mp hc with rfl | hc'
            · exact getD_digit _ _ (fun c hcm => finChars_digits c2 c hcm)
            · rcases List.mem_cons.mp hc' with rfl | hc''
              · exact getD_digit _ _ (fun c hcm => finChars_digits c2 c hcm)
              · simp at hc''
        · rw [decToStr_finite]
          cases hsg : addSign sa ca ea sb cb eb with
          | true =>
            rw [hsg] at hiff
            have hR := hiff.mp rfl
            simp [hR]
          | false =>
            rw [hsg] at hiff
            have hR : ¬(strValue a + strValue b < 0 ∨
                (strValue a + strValue b = 0 ∧ strSign a = true ∧ strSign b = true)) := by
              intro hcon
              have := hiff.mpr hcon
              simp at this
            obtain ⟨z, zs, hz⟩ : ∃ z zs, ((finChars c2).drop 2).reverse = z :: zs := by
              have hne : ((finChars c2).drop 2).reverse ≠ [] := by
                rw [ne_eq, List.reverse_eq_nil_iff, List.drop_eq_nil_iff_le]
                have := finChars_length c2
                omega
              exact List.exists_cons_of_ne_nil hne
            rw [hz]
            have hzdig : z.isDigit = true := by
              have hzmem : z ∈ (finChars c2).drop 2 := by
                rw [← List.mem_reverse, hz]
                exact List.mem_cons_self z zs
              exact finChars_digits c2 z (List.mem_of_mem_drop hzmem)
            constructor
            · intro hhead
              simp only [if_neg (by simp : ¬(false = true)), List.nil_append,
                List.cons_append, List.head?_cons, Option.some.injEq] at hhead
              rw [hhead] at hzdig
              simp at hzdig
            · intro hcon
              exact absurd hcon hR

/-- Claim C7, witness: `1.25 + 2.5` commutes and yields `"3.75"`, whose
format and (absent) sign match the amended characterization. -/
theorem claim_C7_witness :
    parsesFinite "1.25" = true ∧ parsesFinite "2.5" = true ∧
    (sum_str "1.25" "2.5" = sum_str "2.5" "1.25" ∧
     ∀ s, sum_str "1.25" "2.5" = .ok s →
       (∃ t u, s.data = t ++ '.' :: u ∧ u.length = 2 ∧ ∀ c ∈ u, c.isDigit = true) ∧
       (s.data.head? = some '-' ↔
         (strValue "1.25" + strValue "2.5" < 0 ∨
          (strValue "1.25" + strValue "2.5" = 0 ∧
           strSign "1.25" = true ∧ strSign "2.5" = true)))) :=
  ⟨by decide, by decide, claim_C7 "1.25" "2.5" (by decide) (by decide)⟩
